import Mathlib

set_option maxRecDepth 10000

/-!
Verification development for the markup-tag transpiler of the emoji-script
repository (emojiscript-backend/pkg/transpiler/markup_parser.go and the
transpileTag family of code-generation functions).

Modelling conventions:
* Go strings are modelled as Lean `String` / `List Char`.  The Go parser
  indexes bytes; all characters the parser compares against are ASCII, and
  the inputs considered in the theorems below are ASCII, where byte and
  character indexing coincide.  `peek` at end of input yields the NUL
  character, matching Go's `byte(0)`.
* The parser's mutable fields (position, line, column, errors, warnings,
  targetLang, indentLevel, scopeVars) form the `PState` structure.  The
  `input` field is never written after the emoji-conversion pass that runs
  before scanning, so it is threaded as a read-only parameter instead.
* Go's unbounded `for` loops are modelled with explicit fuel.  Loops whose
  every iteration advances the position by at least one character get the
  internal fuel `input.length - pos`, which is provably sufficient, so the
  modelled function is total and agrees with the Go loop on every input.
  The mutually recursive tag/content scanning of `parseTag` uses an
  explicit fuel parameter (`parseStep`), returning `none` on exhaustion;
  the termination theorem shows a concrete fuel bound always suffices.
* `strings.TrimSpace` is modelled over the ASCII whitespace characters
  (space, TAB, LF, VT, FF, CR); Unicode spaces such as NBSP are not
  modelled.  `strings.ToLower` is modelled on ASCII, which agrees with Go
  on every identifier the scanner can produce.
* Go `map[string]string` attribute maps are modelled as association lists
  with overwriting insert; iteration order is never observed for them.
  The emoji-substitution table is iterated by Go in unspecified map order;
  it is modelled in the source listing order, and every theorem that
  involves it relies only on the order-independent fact that a string
  containing no pattern is left unchanged.
-/

/-- NUL character, the value Go's `peek` returns at end of input. -/
def nulChar : Char := Char.ofNat 0

/-- Double-quote character. -/
def dqChar : Char := Char.ofNat 34

/-- Single-quote character. -/
def sqChar : Char := Char.ofNat 39

/-- Backslash character. -/
def bsChar : Char := Char.ofNat 92

/-- Whitespace test used by the scanner (`isWhitespace` in the Go source):
space, tab, newline, carriage return. -/
def isWsB (c : Char) : Bool :=
  c = ' ' || c = '\t' || c = '\n' || c = '\r'

/-- Whitespace test of Go's `strings.TrimSpace` restricted to ASCII:
space, TAB, LF, VT, FF, CR. -/
def isSpaceGo (c : Char) : Bool :=
  c = ' ' || c = '\t' || c = '\n' || c = Char.ofNat 11 || c = Char.ofNat 12 || c = '\r'

/-- Leading and trailing whitespace removal on character lists
(`strings.TrimSpace`). -/
def trimSpaceL (l : List Char) : List Char :=
  ((l.dropWhile isSpaceGo).reverse.dropWhile isSpaceGo).reverse

/-- Go `strings.TrimSpace` on strings. -/
def trimSpaceStr (s : String) : String :=
  String.mk (trimSpaceL s.data)

/-- Identifier character test of `parseIdentifier`: letters, digits,
hyphen, underscore. -/
def isIdentChar (c : Char) : Bool :=
  ('a' ≤ c && c ≤ 'z') || ('A' ≤ c && c ≤ 'Z') || ('0' ≤ c && c ≤ '9') || c = '-' || c = '_'

/-- ASCII letter test (character class `[a-zA-Z]`). -/
def isAsciiAlpha (c : Char) : Bool :=
  ('a' ≤ c && c ≤ 'z') || ('A' ≤ c && c ≤ 'Z')

/-- ASCII digit test (character class `[0-9]`). -/
def isAsciiDigit (c : Char) : Bool :=
  '0' ≤ c && c ≤ '9'

/-- ASCII lower-casing of a single character (Go `strings.ToLower`
restricted to ASCII; every scanner-produced name is ASCII). -/
def toLowerStr (s : String) : String :=
  String.mk (s.data.map Char.toLower)

/-- Substring test: Go `strings.Contains s pat`. -/
def containsSub (pat : List Char) : List Char → Bool
  | [] => pat.isPrefixOf []
  | c :: t => pat.isPrefixOf (c :: t) || containsSub pat t

/-- One pass of Go `strings.ReplaceAll`: leftmost, non-overlapping.  The
fuel is the length of the scanned list; every recursive call drops at
least one character, so `s.length` fuel reproduces the Go behaviour. -/
def replAux (pat rep : List Char) : Nat → List Char → List Char
  | 0, s => s
  | _ + 1, [] => []
  | f + 1, c :: rest =>
    if pat ≠ [] && pat.isPrefixOf (c :: rest) then
      rep ++ replAux pat rep f ((c :: rest).drop pat.length)
    else
      c :: replAux pat rep f rest

/-- Go `strings.ReplaceAll s pat rep` on character lists. -/
def replaceAllL (s pat rep : List Char) : List Char :=
  replAux pat rep s.length s

/-- The emoji-to-keyword table of `convertEmojisToKeywords`, in source
listing order (Go iterates the map in unspecified order; the theorems
below use only the order-independent no-occurrence identity). -/
def emojiTable : List (List Char × List Char) :=
  [("💾".data, "var".data), ("🔒".data, "const".data), ("📝".data, "log".data),
   ("🔢".data, "number".data), ("📊".data, "array".data), ("📦".data, "object".data),
   ("⚡".data, "function".data), ("🔁".data, "loop".data), ("❓".data, "if".data),
   ("✅".data, "true".data), ("❌".data, "false".data), ("➕".data, "+".data),
   ("➖".data, "-".data), ("✖️".data, "*".data), ("➗".data, "/".data)]

/-- The `convertEmojisToKeywords` preprocessing pass. -/
def convertEmojisToKeywords (l : List Char) : List Char :=
  emojiTable.foldl (fun acc pr => replaceAllL acc pr.1 pr.2) l

/-- A parsed markup tag (`MarkupTag` in the Go source).  Attributes are an
association list standing for the Go string map. -/
structure MarkupTag where
  Name : String
  Attributes : List (String × String)
  Content : String
  Children : List MarkupTag
  Line : Nat
  Column : Nat
deriving Repr

/-- The mutable scanner/generator state (`MarkupParser` minus the
read-only `input`, which is threaded as a parameter). -/
structure PState where
  pos : Nat
  line : Nat
  column : Nat
  errors : List String
  warnings : List String
  targetLang : String
  indentLevel : Nat
  scopeVars : List String
deriving Repr, DecidableEq

/-- Fresh parser state (`NewMarkupParser`): line and column start at 1. -/
def initState (targetLang : String) : PState :=
  { pos := 0, line := 1, column := 1, errors := [], warnings := [],
    targetLang := targetLang, indentLevel := 0, scopeVars := [] }

/-- Current character, or NUL at end of input (`peek`). -/
def peek (input : List Char) (st : PState) : Char :=
  input.getD st.pos nulChar

/-- Next character, or NUL (`peekNext`). -/
def peekNext (input : List Char) (st : PState) : Char :=
  input.getD (st.pos + 1) nulChar

/-- Advance one character, maintaining the 1-based line/column counters
(`advance`). -/
def advance (input : List Char) (st : PState) : PState :=
  if st.pos < input.length then
    if input.getD st.pos nulChar = '\n' then
      { st with line := st.line + 1, column := 1, pos := st.pos + 1 }
    else
      { st with column := st.column + 1, pos := st.pos + 1 }
  else st

/-- Record an error string (`p.errors = append(p.errors, e)`). -/
def addError (st : PState) (e : String) : PState :=
  { st with errors := st.errors ++ [e] }

/-- Record a warning string (`p.warnings = append(p.warnings, w)`). -/
def addWarning (st : PState) (w : String) : PState :=
  { st with warnings := st.warnings ++ [w] }

/-- Loop body of `skipWhitespace`; each iteration advances by one, so
`input.length - pos` fuel is exact. -/
def skipWsAux (input : List Char) : Nat → PState → PState
  | 0, st => st
  | f + 1, st =>
    if st.pos < input.length && isWsB (peek input st) then
      skipWsAux input f (advance input st)
    else st

/-- The scanner's `skipWhitespace`. -/
def skipWhitespace (input : List Char) (st : PState) : PState :=
  skipWsAux input (input.length - st.pos) st

/-- Loop body of `parseIdentifier`; collects the identifier characters in
order.  Each iteration advances by one, so `input.length - pos` fuel is
exact. -/
def identAux (input : List Char) : Nat → PState → List Char × PState
  | 0, st => ([], st)
  | f + 1, st =>
    if st.pos < input.length && isIdentChar (peek input st) then
      let pr := identAux input f (advance input st)
      (peek input st :: pr.1, pr.2)
    else ([], st)

/-- The scanner's `parseIdentifier`. -/
def parseIdentifier (input : List Char) (st : PState) : String × PState :=
  let pr := identAux input (input.length - st.pos) st
  (String.mk pr.1, pr.2)

/-- Loop body of the quoted branch of `parseAttributeValue`; handles
backslash escapes.  Each iteration advances by at least one, so
`input.length - pos` fuel suffices and the exit at fuel 0 coincides with
the Go loop condition. -/
def quotedAux (input : List Char) (q : Char) : Nat → PState → List Char × PState
  | 0, st => ([], st)
  | f + 1, st =>
    if st.pos < input.length && peek input st ≠ q then
      if peek input st = bsChar then
        let st1 := advance input st
        if st1.pos < input.length then
          let pr := quotedAux input q f (advance input st1)
          (peek input st1 :: pr.1, pr.2)
        else quotedAux input q f st1
      else
        let pr := quotedAux input q f (advance input st)
        (peek input st :: pr.1, pr.2)
    else ([], st)

/-- Loop body of the unquoted branch of `parseAttributeValue`. -/
def unquotedAux (input : List Char) : Nat → PState → List Char × PState
  | 0, st => ([], st)
  | f + 1, st =>
    if st.pos < input.length then
      let c := peek input st
      if c ≠ '>' && c ≠ ' ' && c ≠ '\t' && c ≠ '\n' && c ≠ '\r' then
        let pr := unquotedAux input f (advance input st)
        (c :: pr.1, pr.2)
      else ([], st)
    else ([], st)

/-- The scanner's `parseAttributeValue`: skip whitespace, then read a
single- or double-quoted value with escapes, or an unquoted run. -/
def parseAttributeValue (input : List Char) (st0 : PState) : String × PState :=
  let st := skipWhitespace input st0
  if peek input st = dqChar || peek input st = sqChar then
    let q := peek input st
    let st1 := advance input st
    let pr := quotedAux input q (input.length - st1.pos) st1
    let st2 := pr.2
    let st3 := if peek input st2 = q then advance input st2 else st2
    (String.mk pr.1, st3)
  else
    let pr := unquotedAux input (input.length - st.pos) st
    (String.mk pr.1, pr.2)

/-- Overwriting insert into the attribute map (`tag.Attributes[k] = v`). -/
def attrInsert (attrs : List (String × String)) (k v : String) : List (String × String) :=
  if attrs.any (fun p => p.1 = k) then
    attrs.map (fun p => if p.1 = k then (k, v) else p)
  else attrs ++ [(k, v)]

/-- Attribute lookup with the Go zero value `""` for missing keys. -/
def attrGet (attrs : List (String × String)) (k : String) : String :=
  ((attrs.find? (fun p => p.1 = k)).map (fun p => p.2)).getD ""

/-- The attribute-reading loop of `parseTag`.  Every iteration that
recurses has consumed at least the (non-empty) attribute name, so
`input.length - pos` fuel suffices; at fuel 0 the position is at or past
the end, where the Go loop condition is false as well. -/
def attrLoopAux (input : List Char) : Nat → PState → List (String × String) → List (String × String) × PState
  | 0, st, attrs => (attrs, st)
  | f + 1, st, attrs =>
    if peek input st ≠ '>' && peek input st ≠ '/' && st.pos < input.length then
      let prN := parseIdentifier input st
      let attrName := prN.1
      let st1 := prN.2
      if attrName = "" then (attrs, st1)
      else
        let st2 := skipWhitespace input st1
        if peek input st2 = '=' then
          let st3 := advance input st2
          let st4 := skipWhitespace input st3
          let prV := parseAttributeValue input st4
          attrLoopAux input f (skipWhitespace input prV.2) (attrInsert attrs attrName prV.1)
        else
          attrLoopAux input f (skipWhitespace input st2) (attrInsert attrs attrName "true")
    else (attrs, st)

/-- The attribute-reading loop with its sufficient fuel. -/
def attrLoop (input : List Char) (st : PState) : List (String × String) × PState :=
  attrLoopAux input (input.length - st.pos) st []

/-- Loop body of `parseRawCode`: collect characters up to the next `<`. -/
def rawAux (input : List Char) : Nat → PState → List Char × PState
  | 0, st => ([], st)
  | f + 1, st =>
    if st.pos < input.length && peek input st ≠ '<' then
      let pr := rawAux input f (advance input st)
      (peek input st :: pr.1, pr.2)
    else ([], st)

/-- The scanner's `parseRawCode`: text up to the next `<`, trimmed. -/
def parseRawCode (input : List Char) (st : PState) : String × PState :=
  let pr := rawAux input (input.length - st.pos) st
  (trimSpaceStr (String.mk pr.1), pr.2)

/-- The scanner's `parseClosingTag`.  Its success branch builds the Go
zero-value tag apart from the name (nil attributes, empty content,
line and column 0). -/
def parseClosingTag (input : List Char) (st : PState) : Except String MarkupTag × PState :=
  if peek input st ≠ '<' then (Except.error "expected '<'", st)
  else
    let st1 := advance input st
    if peek input st1 ≠ '/' then (Except.error "expected '/'", st1)
    else
      let st2 := advance input st1
      let prN := parseIdentifier input st2
      let tagName := prN.1
      let st3 := prN.2
      if tagName = "" then (Except.error "expected tag name in closing tag", st3)
      else
        let st4 := skipWhitespace input st3
        if peek input st4 ≠ '>' then (Except.error "expected '>' in closing tag", st4)
        else
          (Except.ok { Name := tagName, Attributes := [], Content := "", Children := [],
                       Line := 0, Column := 0 },
           advance input st4)

/-- The reserved-word list of `validateIdentifier`. -/
def reservedWords : List String :=
  ["if", "else", "for", "while", "function", "return", "const", "let", "var"]

/-- Whole-string match of the Go regular expression
`^[a-zA-Z_][a-zA-Z0-9_]*$` (RE2 anchors without multiline flags match the
ends of the text). -/
def identRegexMatch (s : String) : Bool :=
  match s.data with
  | [] => false
  | c :: rest =>
    (isAsciiAlpha c || c = '_') && rest.all (fun d => isAsciiAlpha d || isAsciiDigit d || d = '_')

/-- The generator's `validateIdentifier`: `none` means valid, `some e`
carries the error message. -/
def validateIdentifier (name : String) : Option String :=
  if name = "" then some "empty identifier"
  else if !identRegexMatch name then some ("invalid identifier: " ++ name)
  else if name ∈ reservedWords then some ("'" ++ name ++ "' is a reserved keyword")
  else none

/-- Current indentation string (`indent`): two spaces per level. -/
def indentOf (n : Nat) : String :=
  String.mk (List.replicate (2 * n) ' ')

/-- Current indentation of a state. -/
def indentStr (st : PState) : String :=
  indentOf st.indentLevel

/-- Go `strings.Split s "\n"` on character lists. -/
def splitNl : List Char → List (List Char)
  | [] => [[]]
  | c :: rest =>
    if c = '\n' then [] :: splitNl rest
    else
      match splitNl rest with
      | [] => [[c]]
      | l :: ls => (c :: l) :: ls

/-- The generator's `indentBlock`: indent every non-blank line one level
deeper; blank lines stay empty. -/
def indentBlock (st : PState) (block : String) : String :=
  let ind := indentOf (st.indentLevel + 1)
  let lines := (splitNl block.data).map String.mk
  String.intercalate "\n" (lines.map (fun line => if trimSpaceStr line = "" then "" else ind ++ line))

/-- The dangerous-substring list of `sanitizeExpression`. -/
def dangerousPatterns : List String :=
  ["eval(", "Function(", "__proto__", "constructor"]

/-- The generator's `sanitizeExpression`: for each pattern whose
lower-cased form occurs in the lower-cased running result, record a
warning and replace the pattern (case-sensitively) with an inline UNSAFE
comment.  This function is defined in the source but has no caller. -/
def sanitizeExpression (st : PState) (expr : String) : String × PState :=
  dangerousPatterns.foldl
    (fun acc pat =>
      if containsSub (toLowerStr pat).data (toLowerStr acc.1).data then
        (String.mk (replaceAllL acc.1.data pat.data ("/* UNSAFE: " ++ pat ++ " */").data),
         addWarning acc.2 ("potentially unsafe pattern detected: " ++ pat))
      else acc)
    (expr, st)

/-- Go `strings.SplitN s "=" 2`: the text before and after the first `=`,
if any. -/
def splitFirstEq : List Char → Option (List Char × List Char)
  | [] => none
  | c :: rest =>
    if c = '=' then some ([], rest)
    else (splitFirstEq rest).map (fun pr => (c :: pr.1, pr.2))

/-- `transpilePrint`: print/log/console tags. -/
def transpilePrint (st : PState) (tag : MarkupTag) : String × PState :=
  (indentStr st ++ "console.log(" ++ trimSpaceStr tag.Content ++ ");", st)

/-- `transpileVariable`: var/let/const/variable tags.  The keyword follows
the stored tag name compared case-sensitively; invalid identifiers append
an error and yield a placeholder comment. -/
def transpileVariable (st : PState) (tag : MarkupTag) : String × PState :=
  let name0 := attrGet tag.Attributes "name"
  let value0 := attrGet tag.Attributes "value"
  let varType := attrGet tag.Attributes "type"
  let nv :=
    if name0 = "" && tag.Content ≠ "" then
      match splitFirstEq tag.Content.data with
      | some pr => (trimSpaceStr (String.mk pr.1), trimSpaceStr (String.mk pr.2))
      | none => (name0, value0)
    else (name0, value0)
  let name := nv.1
  let value := nv.2
  match validateIdentifier name with
  | some err =>
    ("/* Invalid variable: " ++ err ++ " */", addError st err)
  | none =>
    let st1 := { st with scopeVars := name :: st.scopeVars }
    let keyword := if tag.Name = "const" then "const" else if tag.Name = "var" then "var" else "let"
    if st1.targetLang = "typescript" && varType ≠ "" then
      (indentStr st1 ++ keyword ++ " " ++ name ++ ": " ++ varType ++ " = " ++ value ++ ";", st1)
    else
      (indentStr st1 ++ keyword ++ " " ++ name ++ " = " ++ value ++ ";", st1)

/-- `transpileFunction`: function/func/fn tags.  The typescript branch
without a return type emits the same text as the default branch. -/
def transpileFunction (st : PState) (tag : MarkupTag) : String × PState :=
  let name := attrGet tag.Attributes "name"
  let params := attrGet tag.Attributes "params"
  let returnType := attrGet tag.Attributes "returns"
  let asyncKeyword := if attrGet tag.Attributes "async" = "true" then "async " else ""
  match validateIdentifier name with
  | some err =>
    ("/* Invalid function: " ++ err ++ " */", addError st ("invalid function name: " ++ err))
  | none =>
    let body := trimSpaceStr tag.Content
    if st.targetLang = "typescript" && returnType ≠ "" then
      (indentStr st ++ asyncKeyword ++ "function " ++ name ++ "(" ++ params ++ "): " ++ returnType
        ++ " \x7b\n" ++ indentBlock st body ++ "\n" ++ indentStr st ++ "\x7d", st)
    else
      (indentStr st ++ asyncKeyword ++ "function " ++ name ++ "(" ++ params ++ ") \x7b\n"
        ++ indentBlock st body ++ "\n" ++ indentStr st ++ "\x7d", st)

/-- `transpileLoop`: loop/for/foreach/repeat tags.  The Go switch has
identical bodies for the typescript/javascript case and the default case;
both are kept.  Attribute precedence is in, then times, then from/to. -/
def transpileLoop (st : PState) (tag : MarkupTag) : String × PState :=
  let variable0 := attrGet tag.Attributes "var"
  let fromA := attrGet tag.Attributes "from"
  let toA := attrGet tag.Attributes "to"
  let step0 := attrGet tag.Attributes "step"
  let items := attrGet tag.Attributes "in"
  let times := attrGet tag.Attributes "times"
  let body := trimSpaceStr tag.Content
  let step := if step0 = "" then "1" else step0
  if st.targetLang = "typescript" || st.targetLang = "javascript" then
    if items ≠ "" then
      let v := if variable0 = "" then "item" else variable0
      (indentStr st ++ "for (const " ++ v ++ " of " ++ items ++ ") \x7b\n"
        ++ indentBlock st body ++ "\n" ++ indentStr st ++ "\x7d", st)
    else if times ≠ "" then
      let v := if variable0 = "" then "i" else variable0
      (indentStr st ++ "for (let " ++ v ++ " = 0; " ++ v ++ " < " ++ times ++ "; " ++ v
        ++ "++) \x7b\n" ++ indentBlock st body ++ "\n" ++ indentStr st ++ "\x7d", st)
    else if fromA ≠ "" && toA ≠ "" then
      let v := if variable0 = "" then "i" else variable0
      (indentStr st ++ "for (let " ++ v ++ " = " ++ fromA ++ "; " ++ v ++ " < " ++ toA ++ "; "
        ++ v ++ " += " ++ step ++ ") \x7b\n" ++ indentBlock st body ++ "\n" ++ indentStr st ++ "\x7d", st)
    else
      (indentStr st ++ "/* Invalid loop configuration */", st)
  else
    if items ≠ "" then
      let v := if variable0 = "" then "item" else variable0
      (indentStr st ++ "for (const " ++ v ++ " of " ++ items ++ ") \x7b\n"
        ++ indentBlock st body ++ "\n" ++ indentStr st ++ "\x7d", st)
    else if times ≠ "" then
      let v := if variable0 = "" then "i" else variable0
      (indentStr st ++ "for (let " ++ v ++ " = 0; " ++ v ++ " < " ++ times ++ "; " ++ v
        ++ "++) \x7b\n" ++ indentBlock st body ++ "\n" ++ indentStr st ++ "\x7d", st)
    else if fromA ≠ "" && toA ≠ "" then
      let v := if variable0 = "" then "i" else variable0
      (indentStr st ++ "for (let " ++ v ++ " = " ++ fromA ++ "; " ++ v ++ " < " ++ toA ++ "; "
        ++ v ++ " += " ++ step ++ ") \x7b\n" ++ indentBlock st body ++ "\n" ++ indentStr st ++ "\x7d", st)
    else
      (indentStr st ++ "/* Invalid loop configuration */", st)

/-- `transpileWhile`: a missing condition defaults to `true`. -/
def transpileWhile (st : PState) (tag : MarkupTag) : String × PState :=
  let condition0 := attrGet tag.Attributes "condition"
  let condition := if condition0 = "" then "true" else condition0
  let body := trimSpaceStr tag.Content
  (indentStr st ++ "while (" ++ condition ++ ") \x7b\n" ++ indentBlock st body ++ "\n"
    ++ indentStr st ++ "\x7d", st)

/-- `transpileIf`: a missing condition falls back to the first line of the
content. -/
def transpileIf (st : PState) (tag : MarkupTag) : String × PState :=
  let condition0 := attrGet tag.Attributes "condition"
  let condition :=
    if condition0 = "" && tag.Content ≠ "" then
      match splitNl tag.Content.data with
      | [] => condition0
      | l :: _ => trimSpaceStr (String.mk l)
    else condition0
  let body := trimSpaceStr tag.Content
  (indentStr st ++ "if (" ++ condition ++ ") \x7b\n" ++ indentBlock st body ++ "\n"
    ++ indentStr st ++ "\x7d", st)

/-- `transpileElse`. -/
def transpileElse (st : PState) (tag : MarkupTag) : String × PState :=
  let body := trimSpaceStr tag.Content
  (indentStr st ++ "else \x7b\n" ++ indentBlock st body ++ "\n" ++ indentStr st ++ "\x7d", st)

/-- `transpileClass`: extend/class tags. -/
def transpileClass (st : PState) (tag : MarkupTag) : String × PState :=
  let name := attrGet tag.Attributes "name"
  let extends0 := attrGet tag.Attributes "extends"
  match validateIdentifier name with
  | some err =>
    ("/* Invalid class: " ++ err ++ " */", addError st ("invalid class name: " ++ err))
  | none =>
    let body := trimSpaceStr tag.Content
    if extends0 ≠ "" then
      (indentStr st ++ "class " ++ name ++ " extends " ++ extends0 ++ " \x7b\n"
        ++ indentBlock st body ++ "\n" ++ indentStr st ++ "\x7d", st)
    else
      (indentStr st ++ "class " ++ name ++ " \x7b\n" ++ indentBlock st body ++ "\n"
        ++ indentStr st ++ "\x7d", st)

/-- `transpileMethod`. -/
def transpileMethod (st : PState) (tag : MarkupTag) : String × PState :=
  let name := attrGet tag.Attributes "name"
  let params := attrGet tag.Attributes "params"
  let returnType := attrGet tag.Attributes "returns"
  let staticKeyword := if attrGet tag.Attributes "static" = "true" then "static " else ""
  let body := trimSpaceStr tag.Content
  if st.targetLang = "typescript" && returnType ≠ "" then
    (indentStr st ++ staticKeyword ++ name ++ "(" ++ params ++ "): " ++ returnType ++ " \x7b\n"
      ++ indentBlock st body ++ "\n" ++ indentStr st ++ "\x7d", st)
  else
    (indentStr st ++ staticKeyword ++ name ++ "(" ++ params ++ ") \x7b\n"
      ++ indentBlock st body ++ "\n" ++ indentStr st ++ "\x7d", st)

/-- `transpileImport`. -/
def transpileImport (st : PState) (tag : MarkupTag) : String × PState :=
  let module0 := attrGet tag.Attributes "from"
  let items := attrGet tag.Attributes "items"
  if items ≠ "" then
    (indentStr st ++ "import \x7b " ++ items ++ " \x7d from " ++ String.mk [sqChar]
      ++ module0 ++ String.mk [sqChar] ++ ";", st)
  else
    (indentStr st ++ "import " ++ String.mk [sqChar] ++ module0 ++ String.mk [sqChar] ++ ";", st)

/-- `transpileExport`. -/
def transpileExport (st : PState) (tag : MarkupTag) : String × PState :=
  let name := attrGet tag.Attributes "name"
  let isDefault := attrGet tag.Attributes "default" = "true"
  let body := trimSpaceStr tag.Content
  if isDefault then (indentStr st ++ "export default " ++ body, st)
  else if name ≠ "" then (indentStr st ++ "export const " ++ name ++ " = " ++ body ++ ";", st)
  else (indentStr st ++ "export " ++ body, st)

/-- `transpileReturn`: trimmed content, or the `value` attribute when the
content is empty. -/
def transpileReturn (st : PState) (tag : MarkupTag) : String × PState :=
  let value0 := trimSpaceStr tag.Content
  let value := if value0 = "" then attrGet tag.Attributes "value" else value0
  (indentStr st ++ "return " ++ value ++ ";", st)

/-- `transpileArray` (not indented in the source). -/
def transpileArray (st : PState) (tag : MarkupTag) : String × PState :=
  ("[" ++ attrGet tag.Attributes "items" ++ "]", st)

/-- `transpileObject` (not indented in the source). -/
def transpileObject (st : PState) (tag : MarkupTag) : String × PState :=
  ("\x7b " ++ trimSpaceStr tag.Content ++ " \x7d", st)

/-- `transpileTry`. -/
def transpileTry (st : PState) (tag : MarkupTag) : String × PState :=
  (indentStr st ++ "try \x7b\n" ++ indentBlock st (trimSpaceStr tag.Content) ++ "\n"
    ++ indentStr st ++ "\x7d", st)

/-- `transpileCatch`: the error variable defaults to `e`. -/
def transpileCatch (st : PState) (tag : MarkupTag) : String × PState :=
  let errorVar0 := attrGet tag.Attributes "error"
  let errorVar := if errorVar0 = "" then "e" else errorVar0
  (indentStr st ++ "catch (" ++ errorVar ++ ") \x7b\n" ++ indentBlock st (trimSpaceStr tag.Content)
    ++ "\n" ++ indentStr st ++ "\x7d", st)

/-- `transpileComment`. -/
def transpileComment (st : PState) (tag : MarkupTag) : String × PState :=
  (indentStr st ++ "// " ++ trimSpaceStr tag.Content, st)

/-- `transpileAsync`. -/
def transpileAsync (st : PState) (tag : MarkupTag) : String × PState :=
  (indentStr st ++ "async () => \x7b\n" ++ indentBlock st (trimSpaceStr tag.Content) ++ "\n"
    ++ indentStr st ++ "\x7d", st)

/-- `transpileAwait`. -/
def transpileAwait (st : PState) (tag : MarkupTag) : String × PState :=
  (indentStr st ++ "await " ++ trimSpaceStr tag.Content, st)

/-- `transpileSwitch`. -/
def transpileSwitch (st : PState) (tag : MarkupTag) : String × PState :=
  (indentStr st ++ "switch (" ++ attrGet tag.Attributes "on" ++ ") \x7b\n"
    ++ indentBlock st (trimSpaceStr tag.Content) ++ "\n" ++ indentStr st ++ "\x7d", st)

/-- `transpileCase`. -/
def transpileCase (st : PState) (tag : MarkupTag) : String × PState :=
  (indentStr st ++ "case " ++ attrGet tag.Attributes "value" ++ ":\n"
    ++ indentBlock st (trimSpaceStr tag.Content), st)

/-- `transpileBreak`. -/
def transpileBreak (st : PState) (_tag : MarkupTag) : String × PState :=
  (indentStr st ++ "break;", st)

/-- `transpileContinue`. -/
def transpileContinue (st : PState) (_tag : MarkupTag) : String × PState :=
  (indentStr st ++ "continue;", st)

/-- `transpileTag`: dispatch on the lower-cased tag name; unknown names
record a warning and emit a commented placeholder followed by the raw
content. -/
def transpileTag (st : PState) (tag : MarkupTag) : String × PState :=
  match toLowerStr tag.Name with
  | "print" | "log" | "console" => transpilePrint st tag
  | "var" | "let" | "const" | "variable" => transpileVariable st tag
  | "function" | "func" | "fn" => transpileFunction st tag
  | "loop" | "for" | "foreach" | "repeat" => transpileLoop st tag
  | "while" => transpileWhile st tag
  | "if" | "condition" => transpileIf st tag
  | "else" => transpileElse st tag
  | "extend" | "class" => transpileClass st tag
  | "method" => transpileMethod st tag
  | "import" | "require" | "use" => transpileImport st tag
  | "export" => transpileExport st tag
  | "return" => transpileReturn st tag
  | "array" | "list" => transpileArray st tag
  | "object" | "dict" | "map" => transpileObject st tag
  | "try" => transpileTry st tag
  | "catch" => transpileCatch st tag
  | "comment" => transpileComment st tag
  | "async" => transpileAsync st tag
  | "await" => transpileAwait st tag
  | "switch" | "match" => transpileSwitch st tag
  | "case" => transpileCase st tag
  | "break" => transpileBreak st tag
  | "continue" => transpileContinue st tag
  | _ =>
    ("/* Unknown tag: <" ++ tag.Name ++ "> */\n" ++ tag.Content,
     addWarning st ("unknown tag: <" ++ tag.Name ++ ">"))

/-- Requests of the fuelled tag scanner: parse a tag from the current
position, or continue scanning the content of the open tag described by
the extra fields (`startPos` is the position right after the opening
tag's closing `>`, recorded for the unclosed-tag restore). -/
inductive PReq where
  | tag (st : PState)
  | content (st : PState) (tagName : String) (tagLine tagCol : Nat)
      (attrs : List (String × String)) (children : List MarkupTag)
      (acc : List Char) (startPos : Nat)

/-- The fuelled model of `parseTag` and its content-scanning loop.  The
content accumulator `acc` holds the content characters in reverse.
Returns `none` only on fuel exhaustion; the termination theorem shows
the fuel used by `ParseRun` always suffices. -/
def parseStep (input : List Char) : Nat → PReq → Option (Except String MarkupTag × PState)
  | 0, _ => none
  | f + 1, PReq.tag st =>
    if peek input st ≠ '<' then
      some (Except.error ("expected '<' at line " ++ toString st.line ++ ", column "
              ++ toString st.column), st)
    else
      let st1 := advance input st
      if peek input st1 = '/' then
        some (parseClosingTag input st1)
      else
        let prN := parseIdentifier input st1
        let tagName := prN.1
        let st2 := prN.2
        if tagName = "" then
          some (Except.error ("expected tag name at line " ++ toString st2.line ++ ", column "
                  ++ toString st2.column), st2)
        else
          let tagLine := st2.line
          let tagCol := st2.column
          let st3 := skipWhitespace input st2
          let prA := attrLoop input st3
          let attrs := prA.1
          let st4 := prA.2
          if peek input st4 = '/' then
            let st5 := advance input st4
            if peek input st5 ≠ '>' then
              some (Except.error ("expected '>' after '/' at line " ++ toString st5.line
                      ++ ", column " ++ toString st5.column), st5)
            else
              some (Except.ok { Name := tagName, Attributes := attrs, Content := "",
                                Children := [], Line := tagLine, Column := tagCol },
                    advance input st5)
          else if peek input st4 ≠ '>' then
            some (Except.error ("expected '>' at line " ++ toString st4.line ++ ", column "
                    ++ toString st4.column), st4)
          else
            let st5 := advance input st4
            parseStep input f (PReq.content st5 tagName tagLine tagCol attrs [] [] st5.pos)
  | f + 1, PReq.content st tagName tagLine tagCol attrs children acc startPos =>
    if st.pos < input.length then
      if peek input st = '<' then
        if peekNext input st = '/' then
          let stA := advance input (advance input st)
          let prC := parseIdentifier input stA
          let closingName := prC.1
          let stB := prC.2
          if closingName = tagName then
            let stC := skipWhitespace input stB
            if peek input stC ≠ '>' then
              some (Except.error ("expected '>' in closing tag at line " ++ toString stC.line), stC)
            else
              some (Except.ok { Name := tagName, Attributes := attrs,
                                Content := trimSpaceStr (String.mk acc.reverse),
                                Children := children, Line := tagLine, Column := tagCol },
                    advance input stC)
          else
            parseStep input f (PReq.content (advance input st) tagName tagLine tagCol attrs
              children (peek input st :: acc) startPos)
        else
          match parseStep input f (PReq.tag st) with
          | none => none
          | some (Except.error e, st') => some (Except.error e, st')
          | some (Except.ok nested, st') =>
            let prT := transpileTag st' nested
            parseStep input f (PReq.content prT.2 tagName tagLine tagCol attrs
              (children ++ [nested]) (prT.1.data.reverse ++ acc) startPos)
      else
        parseStep input f (PReq.content (advance input st) tagName tagLine tagCol attrs
          children (peek input st :: acc) startPos)
    else
      some (Except.error ("unclosed tag <" ++ tagName ++ "> at line " ++ toString tagLine
              ++ ", column " ++ toString tagCol),
            { st with pos := startPos })

/-- The top-level scanning loop of `Parse`: tags, raw passthrough lines,
or whitespace, each produced unit followed by a newline; tag errors are
recorded and the scanner advances one character. -/
def parseLoopF (input : List Char) : Nat → PState → String → Option (String × PState)
  | 0, _, _ => none
  | f + 1, st, acc =>
    if st.pos < input.length then
      if peek input st = '<' then
        match parseStep input f (PReq.tag st) with
        | none => none
        | some (Except.error e, st') =>
          parseLoopF input f (advance input (addError st' e)) acc
        | some (Except.ok tag, st') =>
          let prT := transpileTag st' tag
          parseLoopF input f prT.2 (acc ++ prT.1 ++ "\n")
      else if !isWsB (peek input st) then
        let prR := parseRawCode input st
        parseLoopF input f prR.2 (acc ++ prR.1 ++ "\n")
      else
        parseLoopF input f (advance input st) acc
    else some (acc, st)

/-- The outcome of a `Parse` call: rendered output, the combined error (if
any), and the recorded error and warning lists. -/
structure ParseResult where
  output : String
  error : Option String
  errors : List String
  warnings : List String
deriving Repr, DecidableEq

/-- The top-level `Parse`: fail on empty trimmed input, convert emojis,
scan, and return a combined error exactly when errors were recorded.
`none` is returned only on fuel exhaustion, which the termination theorem
rules out. -/
def ParseRun (source targetLang : String) : Option ParseResult :=
  if trimSpaceStr source = "" then
    some { output := "", error := some "empty input", errors := [], warnings := [] }
  else
    let input := convertEmojisToKeywords source.data
    match parseLoopF input (input.length + 2) (initState targetLang) "" with
    | none => none
    | some (out, st) =>
      some { output := out,
             error := if st.errors = [] then none
                      else some ("parsing errors: " ++ String.intercalate "; " st.errors),
             errors := st.errors,
             warnings := st.warnings }

/-! Basic lemmas about the cursor primitives: field preservation and
position monotonicity of every helper loop. -/

theorem getD_of_drop_cons : ∀ (l : List Char) (n : Nat) (c : Char) (t : List Char),
    l.drop n = c :: t → l.getD n nulChar = c := by
  intro l n
  induction n generalizing l with
  | zero => intro c t h; simp only [List.drop_zero] at h; subst h; rfl
  | succ n ih =>
    intro c t h
    cases l with
    | nil => simp at h
    | cons a l' => simpa using ih l' c t (by simpa using h)

theorem drop_succ_of_drop_cons : ∀ (l : List Char) (n : Nat) (c : Char) (t : List Char),
    l.drop n = c :: t → l.drop (n + 1) = t := by
  intro l n
  induction n generalizing l with
  | zero => intro c t h; simp only [List.drop_zero] at h; subst h; simp
  | succ n ih =>
    intro c t h
    cases l with
    | nil => simp at h
    | cons a l' => simpa using ih l' c t (by simpa using h)

theorem lt_length_of_drop_cons {l : List Char} {n : Nat} {c : Char} {t : List Char}
    (h : l.drop n = c :: t) : n < l.length := by
  have := congrArg List.length h
  simp only [List.length_drop, List.length_cons] at this
  omega

theorem peek_lt {input : List Char} {st : PState} (h : peek input st ≠ nulChar) :
    st.pos < input.length := by
  by_contra hc
  push_neg at hc
  refine h ?_
  unfold peek
  exact List.getD_eq_default input nulChar hc

theorem peek_of_drop {input : List Char} {st : PState} {c : Char} {t : List Char}
    (h : input.drop st.pos = c :: t) : peek input st = c :=
  getD_of_drop_cons input st.pos c t h

@[simp] theorem advance_errors (input : List Char) (st : PState) :
    (advance input st).errors = st.errors := by
  unfold advance
  split
  · split <;> rfl
  · rfl

@[simp] theorem advance_warnings (input : List Char) (st : PState) :
    (advance input st).warnings = st.warnings := by
  unfold advance
  split
  · split <;> rfl
  · rfl

@[simp] theorem advance_targetLang (input : List Char) (st : PState) :
    (advance input st).targetLang = st.targetLang := by
  unfold advance
  split
  · split <;> rfl
  · rfl

@[simp] theorem advance_indentLevel (input : List Char) (st : PState) :
    (advance input st).indentLevel = st.indentLevel := by
  unfold advance
  split
  · split <;> rfl
  · rfl

@[simp] theorem advance_scopeVars (input : List Char) (st : PState) :
    (advance input st).scopeVars = st.scopeVars := by
  unfold advance
  split
  · split <;> rfl
  · rfl

theorem advance_pos_le (input : List Char) (st : PState) :
    st.pos ≤ (advance input st).pos := by
  unfold advance
  split
  · split <;> simp
  · exact Nat.le_refl _

theorem advance_pos_of_lt {input : List Char} {st : PState} (h : st.pos < input.length) :
    (advance input st).pos = st.pos + 1 := by
  unfold advance
  rw [if_pos h]
  split <;> rfl

theorem advance_of_ge {input : List Char} {st : PState} (h : input.length ≤ st.pos) :
    advance input st = st := by
  unfold advance
  rw [if_neg (by omega)]

theorem peek_advance {input : List Char} {st : PState} (h : st.pos < input.length) :
    peek input (advance input st) = peekNext input st := by
  unfold peek peekNext advance
  rw [if_pos h]
  split <;> rfl

theorem skipWsAux_pos_le (input : List Char) : ∀ (f : Nat) (st : PState),
    st.pos ≤ (skipWsAux input f st).pos := by
  intro f
  induction f with
  | zero => intro st; exact Nat.le_refl _
  | succ f ih =>
    intro st
    unfold skipWsAux
    split
    · exact Nat.le_trans (advance_pos_le input st) (ih (advance input st))
    · exact Nat.le_refl _

theorem skipWhitespace_pos_le (input : List Char) (st : PState) :
    st.pos ≤ (skipWhitespace input st).pos :=
  skipWsAux_pos_le input _ st

theorem skipWhitespace_id {input : List Char} {st : PState}
    (h : isWsB (peek input st) = false) : skipWhitespace input st = st := by
  unfold skipWhitespace
  cases hf : input.length - st.pos with
  | zero => rfl
  | succ f =>
    unfold skipWsAux
    rw [if_neg (by simp [h])]

theorem identAux_pos (input : List Char) : ∀ (f : Nat) (st : PState),
    (identAux input f st).2.pos = st.pos + (identAux input f st).1.length := by
  intro f
  induction f with
  | zero => intro st; simp [identAux]
  | succ f ih =>
    intro st
    unfold identAux
    split
    · rename_i h
      simp only [Bool.and_eq_true, decide_eq_true_eq] at h
      dsimp only
      rw [ih (advance input st), advance_pos_of_lt h.1]
      simp only [List.length_cons]
      omega
    · simp

theorem parseIdentifier_pos (input : List Char) (st : PState) :
    (parseIdentifier input st).2.pos = st.pos + (parseIdentifier input st).1.length := by
  unfold parseIdentifier
  dsimp only
  simpa [String.length] using identAux_pos input (input.length - st.pos) st

theorem parseIdentifier_pos_le (input : List Char) (st : PState) :
    st.pos ≤ (parseIdentifier input st).2.pos := by
  rw [parseIdentifier_pos]
  omega

theorem parseIdentifier_pos_lt {input : List Char} {st : PState}
    (h : (parseIdentifier input st).1 ≠ "") : st.pos + 1 ≤ (parseIdentifier input st).2.pos := by
  rw [parseIdentifier_pos]
  have hlen : (parseIdentifier input st).1.length ≠ 0 := by
    intro hc
    refine h ?_
    cases hd : (parseIdentifier input st).1 with
    | mk data =>
      rw [hd] at hc
      simp only [String.length] at hc
      simp [String.ext_iff, hd, List.length_eq_zero.mp hc]
  omega

theorem quotedAux_pos_le (input : List Char) (q : Char) : ∀ (f : Nat) (st : PState),
    st.pos ≤ (quotedAux input q f st).2.pos := by
  intro f
  induction f with
  | zero => intro st; exact Nat.le_refl _
  | succ f ih =>
    intro st
    unfold quotedAux
    dsimp only
    split
    · split
      · split
        · exact Nat.le_trans (advance_pos_le input st)
            (Nat.le_trans (advance_pos_le input (advance input st))
              (ih (advance input (advance input st))))
        · exact Nat.le_trans (advance_pos_le input st) (ih (advance input st))
      · exact Nat.le_trans (advance_pos_le input st) (ih (advance input st))
    · exact Nat.le_refl _

theorem unquotedAux_pos_le (input : List Char) : ∀ (f : Nat) (st : PState),
    st.pos ≤ (unquotedAux input f st).2.pos := by
  intro f
  induction f with
  | zero => intro st; exact Nat.le_refl _
  | succ f ih =>
    intro st
    unfold unquotedAux
    dsimp only
    split
    · split
      · exact Nat.le_trans (advance_pos_le input st) (ih (advance input st))
      · exact Nat.le_refl _
    · exact Nat.le_refl _

theorem parseAttributeValue_pos_le (input : List Char) (st : PState) :
    st.pos ≤ (parseAttributeValue input st).2.pos := by
  unfold parseAttributeValue
  dsimp only
  have h0 := skipWhitespace_pos_le input st
  split
  · have hx : st.pos ≤ (quotedAux input (peek input (skipWhitespace input st))
        (input.length - (advance input (skipWhitespace input st)).pos)
        (advance input (skipWhitespace input st))).2.pos :=
      Nat.le_trans h0 (Nat.le_trans (advance_pos_le input _) (quotedAux_pos_le input _ _ _))
    split
    · exact Nat.le_trans hx (advance_pos_le input _)
    · exact hx
  · exact Nat.le_trans h0 (unquotedAux_pos_le input _ _)

theorem attrLoopAux_pos_le (input : List Char) : ∀ (f : Nat) (st : PState)
    (attrs : List (String × String)), st.pos ≤ (attrLoopAux input f st attrs).2.pos := by
  intro f
  induction f with
  | zero => intro st attrs; exact Nat.le_refl _
  | succ f ih =>
    intro st attrs
    unfold attrLoopAux
    dsimp only
    split
    · split
      · exact parseIdentifier_pos_le input st
      · split
        · exact Nat.le_trans (parseIdentifier_pos_le input st)
            (Nat.le_trans (skipWhitespace_pos_le input _)
              (Nat.le_trans (advance_pos_le input _)
                (Nat.le_trans (skipWhitespace_pos_le input _)
                  (Nat.le_trans (parseAttributeValue_pos_le input _)
                    (Nat.le_trans (skipWhitespace_pos_le input _) (ih _ _))))))
        · exact Nat.le_trans (parseIdentifier_pos_le input st)
            (Nat.le_trans (skipWhitespace_pos_le input _)
              (Nat.le_trans (skipWhitespace_pos_le input _) (ih _ _)))
    · exact Nat.le_refl _

theorem attrLoop_pos_le (input : List Char) (st : PState) :
    st.pos ≤ (attrLoop input st).2.pos :=
  attrLoopAux_pos_le input _ st []

theorem attrLoop_id {input : List Char} {st : PState}
    (h : peek input st = '>' ∨ peek input st = '/' ∨ input.length ≤ st.pos) :
    attrLoop input st = ([], st) := by
  unfold attrLoop
  cases hf : input.length - st.pos with
  | zero => rfl
  | succ f =>
    unfold attrLoopAux
    rw [if_neg]
    simp only [Bool.and_eq_true, decide_eq_true_eq, ne_eq]
    rintro ⟨⟨h1, h2⟩, h3⟩
    rcases h with h | h | h
    · exact h1 h
    · exact h2 h
    · omega

theorem rawAux_pos_le (input : List Char) : ∀ (f : Nat) (st : PState),
    st.pos ≤ (rawAux input f st).2.pos := by
  intro f
  induction f with
  | zero => intro st; exact Nat.le_refl _
  | succ f ih =>
    intro st
    unfold rawAux
    dsimp only
    split
    · exact Nat.le_trans (advance_pos_le input st) (ih (advance input st))
    · exact Nat.le_refl _

theorem parseRawCode_pos_le (input : List Char) (st : PState) :
    st.pos ≤ (parseRawCode input st).2.pos :=
  rawAux_pos_le input _ st

theorem parseRawCode_pos_lt {input : List Char} {st : PState}
    (h1 : st.pos < input.length) (h2 : peek input st ≠ '<') :
    st.pos + 1 ≤ (parseRawCode input st).2.pos := by
  unfold parseRawCode
  dsimp only
  cases hf : input.length - st.pos with
  | zero => omega
  | succ f =>
    unfold rawAux
    rw [if_pos (by simp [h1, h2])]
    dsimp only
    have hm := rawAux_pos_le input f (advance input st)
    have ha := advance_pos_of_lt h1
    omega

theorem parseClosingTag_pos_le (input : List Char) (st : PState) :
    st.pos ≤ (parseClosingTag input st).2.pos := by
  unfold parseClosingTag
  dsimp only
  split
  · exact Nat.le_refl _
  · split
    · exact advance_pos_le input st
    · split
      · exact Nat.le_trans (advance_pos_le input st)
          (Nat.le_trans (advance_pos_le input _) (parseIdentifier_pos_le input _))
      · split
        · exact Nat.le_trans (advance_pos_le input st)
            (Nat.le_trans (advance_pos_le input _)
              (Nat.le_trans (parseIdentifier_pos_le input _) (skipWhitespace_pos_le input _)))
        · exact Nat.le_trans (advance_pos_le input st)
            (Nat.le_trans (advance_pos_le input _)
              (Nat.le_trans (parseIdentifier_pos_le input _)
                (Nat.le_trans (skipWhitespace_pos_le input _) (advance_pos_le input _))))

theorem closing_at_slash {input : List Char} {st : PState} (h : peek input st = '/') :
    parseClosingTag input st = (Except.error "expected '<'", st) := by
  unfold parseClosingTag
  rw [if_pos (by rw [h]; decide)]

theorem transpileVariable_pos (st : PState) (tag : MarkupTag) :
    (transpileVariable st tag).2.pos = st.pos := by
  unfold transpileVariable addError
  dsimp only
  repeat' split
  all_goals rfl

theorem transpileFunction_pos (st : PState) (tag : MarkupTag) :
    (transpileFunction st tag).2.pos = st.pos := by
  unfold transpileFunction addError
  dsimp only
  repeat' split
  all_goals rfl

theorem transpileLoop_pos (st : PState) (tag : MarkupTag) :
    (transpileLoop st tag).2.pos = st.pos := by
  unfold transpileLoop
  dsimp only
  repeat' split
  all_goals rfl

theorem transpileClass_pos (st : PState) (tag : MarkupTag) :
    (transpileClass st tag).2.pos = st.pos := by
  unfold transpileClass addError
  dsimp only
  repeat' split
  all_goals rfl

theorem transpileMethod_pos (st : PState) (tag : MarkupTag) :
    (transpileMethod st tag).2.pos = st.pos := by
  unfold transpileMethod
  dsimp only
  repeat' split
  all_goals rfl

theorem transpileImport_pos (st : PState) (tag : MarkupTag) :
    (transpileImport st tag).2.pos = st.pos := by
  unfold transpileImport
  dsimp only
  repeat' split
  all_goals rfl

theorem transpileExport_pos (st : PState) (tag : MarkupTag) :
    (transpileExport st tag).2.pos = st.pos := by
  unfold transpileExport
  dsimp only
  repeat' split
  all_goals rfl

theorem transpileTag_pos (st : PState) (tag : MarkupTag) :
    (transpileTag st tag).2.pos = st.pos := by
  unfold transpileTag
  split
  all_goals first
    | rfl
    | exact transpileVariable_pos st tag
    | exact transpileFunction_pos st tag
    | exact transpileLoop_pos st tag
    | exact transpileClass_pos st tag
    | exact transpileMethod_pos st tag
    | exact transpileImport_pos st tag
    | exact transpileExport_pos st tag

/-! Fuel sufficiency: every loop of the scanner makes strict forward
progress, so the fuel used by `ParseRun` never runs out. -/

theorem parseStep_suff (input : List Char) : ∀ f : Nat,
    (∀ st : PState, input.length - st.pos + 1 ≤ f →
      ∃ r st', parseStep input f (PReq.tag st) = some (r, st') ∧ st.pos ≤ st'.pos ∧
        (∀ t : MarkupTag, r = Except.ok t → st.pos + 1 ≤ st'.pos)) ∧
    (∀ (st : PState) (nm : String) (ln cl : Nat) (attrs : List (String × String))
        (ch : List MarkupTag) (acc : List Char) (sp : Nat),
      input.length - st.pos + 2 ≤ f → sp ≤ st.pos →
      ∃ r st', parseStep input f (PReq.content st nm ln cl attrs ch acc sp) = some (r, st') ∧
        sp ≤ st'.pos) := by
  intro f
  induction f using Nat.strong_induction_on with
  | h f IH =>
    match f with
    | 0 =>
      constructor
      · intro st hb; omega
      · intro st nm ln cl attrs ch acc sp hb hsp; omega
    | g + 1 =>
      constructor
      · -- the tag request
        intro st hb
        simp only [parseStep]
        by_cases hpk : peek input st = '<'
        · rw [if_neg (not_not_intro hpk)]
          have hlt : st.pos < input.length := peek_lt (by rw [hpk]; decide)
          have hadv : (advance input st).pos = st.pos + 1 := advance_pos_of_lt hlt
          by_cases hsl : peek input (advance input st) = '/'
          · rw [if_pos hsl, closing_at_slash hsl]
            refine ⟨_, _, rfl, by omega, ?_⟩
            intro t ht
            simp at ht
          · rw [if_neg hsl]
            by_cases hnm : (parseIdentifier input (advance input st)).1 = ""
            · rw [if_pos hnm]
              have h2 := parseIdentifier_pos_le input (advance input st)
              refine ⟨_, _, rfl, by omega, ?_⟩
              intro t ht
              simp at ht
            · rw [if_neg hnm]
              have h2 : st.pos + 2 ≤ (parseIdentifier input (advance input st)).2.pos := by
                have := parseIdentifier_pos_lt hnm
                omega
              have h3 := skipWhitespace_pos_le input (parseIdentifier input (advance input st)).2
              have h4 := attrLoop_pos_le input
                (skipWhitespace input (parseIdentifier input (advance input st)).2)
              by_cases hsc : peek input (attrLoop input
                  (skipWhitespace input (parseIdentifier input (advance input st)).2)).2 = '/'
              · rw [if_pos hsc]
                by_cases hgt : peek input (advance input (attrLoop input
                    (skipWhitespace input (parseIdentifier input (advance input st)).2)).2) = '>'
                · rw [if_neg (not_not_intro hgt)]
                  have h5 := advance_pos_le input (attrLoop input
                    (skipWhitespace input (parseIdentifier input (advance input st)).2)).2
                  have h6 := advance_pos_le input (advance input (attrLoop input
                    (skipWhitespace input (parseIdentifier input (advance input st)).2)).2)
                  refine ⟨_, _, rfl, by omega, ?_⟩
                  intro t ht
                  omega
                · rw [if_pos hgt]
                  have h5 := advance_pos_le input (attrLoop input
                    (skipWhitespace input (parseIdentifier input (advance input st)).2)).2
                  refine ⟨_, _, rfl, by omega, ?_⟩
                  intro t ht
                  simp at ht
              · rw [if_neg hsc]
                by_cases hgt2 : peek input (attrLoop input
                    (skipWhitespace input (parseIdentifier input (advance input st)).2)).2 = '>'
                · rw [if_neg (not_not_intro hgt2)]
                  have hlt4 : (attrLoop input (skipWhitespace input
                      (parseIdentifier input (advance input st)).2)).2.pos < input.length :=
                    peek_lt (by rw [hgt2]; decide)
                  have h5 : (advance input (attrLoop input (skipWhitespace input
                      (parseIdentifier input (advance input st)).2)).2).pos
                      = (attrLoop input (skipWhitespace input
                        (parseIdentifier input (advance input st)).2)).2.pos + 1 :=
                    advance_pos_of_lt hlt4
                  obtain ⟨r, st', heq, hge⟩ :=
                    (IH g (Nat.lt_succ_self g)).2
                      (advance input (attrLoop input (skipWhitespace input
                        (parseIdentifier input (advance input st)).2)).2)
                      (parseIdentifier input (advance input st)).1
                      (parseIdentifier input (advance input st)).2.line
                      (parseIdentifier input (advance input st)).2.column
                      (attrLoop input (skipWhitespace input
                        (parseIdentifier input (advance input st)).2)).1
                      [] []
                      (advance input (attrLoop input (skipWhitespace input
                        (parseIdentifier input (advance input st)).2)).2).pos
                      (by omega) (Nat.le_refl _)
                  refine ⟨r, st', heq, by omega, ?_⟩
                  intro t ht
                  omega
                · rw [if_pos hgt2]
                  refine ⟨_, _, rfl, by omega, ?_⟩
                  intro t ht
                  simp at ht
        · rw [if_pos hpk]
          refine ⟨_, _, rfl, Nat.le_refl _, ?_⟩
          intro t ht
          simp at ht
      · -- the content request
        intro st nm ln cl attrs ch acc sp hb hsp
        simp only [parseStep]
        by_cases hend : st.pos < input.length
        · rw [if_pos hend]
          have hadv : (advance input st).pos = st.pos + 1 := advance_pos_of_lt hend
          by_cases hlt : peek input st = '<'
          · rw [if_pos hlt]
            by_cases hnx : peekNext input st = '/'
            · rw [if_pos hnx]
              by_cases hcn : (parseIdentifier input (advance input (advance input st))).1 = nm
              · rw [if_pos hcn]
                have h1 := advance_pos_le input st
                have h2 := advance_pos_le input (advance input st)
                have h3 := parseIdentifier_pos_le input (advance input (advance input st))
                have h4 := skipWhitespace_pos_le input
                  (parseIdentifier input (advance input (advance input st))).2
                by_cases hc2 : peek input (skipWhitespace input
                    (parseIdentifier input (advance input (advance input st))).2) = '>'
                · rw [if_neg (not_not_intro hc2)]
                  have h5 := advance_pos_le input (skipWhitespace input
                    (parseIdentifier input (advance input (advance input st))).2)
                  exact ⟨_, _, rfl, by omega⟩
                · rw [if_pos hc2]
                  exact ⟨_, _, rfl, by omega⟩
              · rw [if_neg hcn]
                obtain ⟨r, st', heq, hge⟩ :=
                  (IH g (Nat.lt_succ_self g)).2 (advance input st) nm ln cl attrs ch
                    (peek input st :: acc) sp (by omega) (by omega)
                exact ⟨r, st', heq, hge⟩
            · rw [if_neg hnx]
              obtain ⟨r0, st0, heq0, hge0, hok0⟩ :=
                (IH g (Nat.lt_succ_self g)).1 st (by omega)
              rw [heq0]
              cases r0 with
              | error e =>
                exact ⟨_, _, rfl, by omega⟩
              | ok nested =>
                have hok := hok0 nested rfl
                have htp := transpileTag_pos st0 nested
                obtain ⟨r1, st1, heq1, hge1⟩ :=
                  (IH g (Nat.lt_succ_self g)).2 (transpileTag st0 nested).2 nm ln cl attrs
                    (ch ++ [nested]) ((transpileTag st0 nested).1.data.reverse ++ acc) sp
                    (by omega) (by omega)
                exact ⟨r1, st1, heq1, hge1⟩
          · rw [if_neg hlt]
            obtain ⟨r, st', heq, hge⟩ :=
              (IH g (Nat.lt_succ_self g)).2 (advance input st) nm ln cl attrs ch
                (peek input st :: acc) sp (by omega) (by omega)
            exact ⟨r, st', heq, hge⟩
        · rw [if_neg hend]
          exact ⟨_, _, rfl, Nat.le_refl _⟩

@[simp] theorem addError_pos (st : PState) (e : String) : (addError st e).pos = st.pos := rfl

theorem parseLoop_suff (input : List Char) : ∀ (f : Nat) (st : PState) (acc : String),
    input.length - st.pos + 2 ≤ f → (parseLoopF input f st acc).isSome = true := by
  intro f
  induction f using Nat.strong_induction_on with
  | h f IH =>
    match f with
    | 0 => intro st acc hb; omega
    | g + 1 =>
      intro st acc hb
      simp only [parseLoopF]
      by_cases hend : st.pos < input.length
      · rw [if_pos hend]
        by_cases hpk : peek input st = '<'
        · rw [if_pos hpk]
          obtain ⟨r, st', heq, hge, hok⟩ := (parseStep_suff input g).1 st (by omega)
          rw [heq]
          cases r with
          | error e =>
            rcases Nat.lt_or_ge (addError st' e).pos input.length with hc | hc
            · have h2 := advance_pos_of_lt hc
              exact IH g (Nat.lt_succ_self g) _ acc (by simp only [addError_pos] at h2 ⊢; omega)
            · have h2 := advance_of_ge hc
              exact IH g (Nat.lt_succ_self g) _ acc
                (by rw [h2]; simp only [addError_pos] at hc ⊢; omega)
          | ok tag =>
            have htp := transpileTag_pos st' tag
            have hok' := hok tag rfl
            exact IH g (Nat.lt_succ_self g) _ _ (by omega)
        · rw [if_neg hpk]
          by_cases hws : isWsB (peek input st) = false
          · rw [if_pos (by simp [hws])]
            have h1 := parseRawCode_pos_lt hend hpk
            exact IH g (Nat.lt_succ_self g) _ _ (by omega)
          · rw [if_neg (by simp at hws; simp [hws])]
            have h1 := advance_pos_of_lt hend
            exact IH g (Nat.lt_succ_self g) _ acc (by omega)
      · rw [if_neg hend]
        rfl

/-! Lemmas about string replacement, trimming, and symbolic runs of the
scanner on restricted input families. -/

theorem replAux_id (pat rep : List Char) : ∀ (f : Nat) (s : List Char),
    containsSub pat s = false → replAux pat rep f s = s := by
  intro f
  induction f with
  | zero => intro s _; rfl
  | succ f ih =>
    intro s h
    cases s with
    | nil => rfl
    | cons c rest =>
      simp only [containsSub, Bool.or_eq_false_iff] at h
      unfold replAux
      rw [if_neg (by simp [h.1])]
      rw [ih rest h.2]

theorem replaceAllL_id {s pat : List Char} (rep : List Char)
    (h : containsSub pat s = false) : replaceAllL s pat rep = s :=
  replAux_id pat rep s.length s h

theorem foldl_repl_id : ∀ (l : List (List Char × List Char)) (s : List Char),
    (∀ pr ∈ l, containsSub pr.1 s = false) →
    l.foldl (fun acc pr => replaceAllL acc pr.1 pr.2) s = s := by
  intro l
  induction l with
  | nil => intro s _; rfl
  | cons p l' ih =>
    intro s h
    simp only [List.foldl_cons]
    rw [replaceAllL_id p.2 (h p (List.mem_cons_self p l'))]
    exact ih s (fun pr hpr => h pr (List.mem_cons_of_mem p hpr))

theorem convertEmojis_id {s : List Char}
    (h : ∀ pr ∈ emojiTable, containsSub pr.1 s = false) :
    convertEmojisToKeywords s = s :=
  foldl_repl_id emojiTable s h

theorem isSpaceGo_of_isWsB {c : Char} (h : isWsB c = true) : isSpaceGo c = true := by
  simp only [isWsB, Bool.or_eq_true, decide_eq_true_eq] at h
  rcases h with ((h | h) | h) | h <;> simp [isSpaceGo, h]

theorem trimSpaceL_cons_ws {c : Char} (l : List Char) (h : isSpaceGo c = true) :
    trimSpaceL (c :: l) = trimSpaceL l := by
  simp [trimSpaceL, List.dropWhile_cons, h]

theorem trimSpaceL_all_ws {l : List Char} (h : ∀ c ∈ l, isSpaceGo c = true) :
    trimSpaceL l = [] := by
  unfold trimSpaceL
  rw [List.dropWhile_eq_nil_iff.mpr h]
  rfl

theorem exists_nonspace_of_trim_ne {l : List Char} (h : trimSpaceL l ≠ []) :
    ∃ c ∈ l, isSpaceGo c = false := by
  by_contra hc
  push_neg at hc
  refine h (trimSpaceL_all_ws ?_)
  intro c hmem
  have := hc c hmem
  exact Bool.not_eq_false _ |>.mp (by simpa using this)

theorem rawAux_run (input : List Char) : ∀ (rest : List Char) (f : Nat) (st : PState),
    input.drop st.pos = rest → st.pos ≤ input.length → '<' ∉ rest →
    input.length - st.pos ≤ f →
    ∃ st', rawAux input f st = (rest, st') ∧ st'.pos = input.length ∧
      st'.errors = st.errors ∧ st'.warnings = st.warnings := by
  intro rest
  induction rest with
  | nil =>
    intro f st hdrop hle _ _
    have hpos : st.pos = input.length := by
      have := List.drop_eq_nil_iff.mp hdrop
      omega
    cases f with
    | zero => exact ⟨st, rfl, hpos, rfl, rfl⟩
    | succ f =>
      refine ⟨st, ?_, hpos, rfl, rfl⟩
      unfold rawAux
      rw [if_neg (by simp only [Bool.and_eq_true, decide_eq_true_eq]; rintro ⟨h1, _⟩; omega)]
  | cons c rest' ih =>
    intro f st hdrop hle hnl hf
    have hlt : st.pos < input.length := lt_length_of_drop_cons hdrop
    have hpeek : peek input st = c := peek_of_drop hdrop
    have hcne : c ≠ '<' := fun hc => hnl (hc ▸ List.mem_cons_self c rest')
    cases f with
    | zero => omega
    | succ f =>
      unfold rawAux
      rw [if_pos (by simp [hpeek, hcne, hlt])]
      dsimp only
      have hadv := advance_pos_of_lt hlt
      obtain ⟨st', heq, hp, he, hw⟩ := ih f (advance input st)
        (by rw [advance_pos_of_lt hlt]; exact drop_succ_of_drop_cons input st.pos c rest' hdrop)
        (by omega)
        (fun hc => hnl (List.mem_cons_of_mem c hc))
        (by omega)
      refine ⟨st', ?_, hp, by rw [he, advance_errors], by rw [hw, advance_warnings]⟩
      rw [heq, hpeek]

theorem parseRawCode_run {input : List Char} {rest : List Char} {st : PState}
    (hdrop : input.drop st.pos = rest) (hle : st.pos ≤ input.length) (hnl : '<' ∉ rest) :
    ∃ st', parseRawCode input st = (trimSpaceStr (String.mk rest), st') ∧
      st'.pos = input.length ∧ st'.errors = st.errors ∧ st'.warnings = st.warnings := by
  unfold parseRawCode
  obtain ⟨st', heq, hp, he, hw⟩ := rawAux_run input rest (input.length - st.pos) st hdrop hle hnl
    (Nat.le_refl _)
  refine ⟨st', ?_, hp, he, hw⟩
  rw [heq]

theorem parseLoop_pass_ws (input : List Char) : ∀ (rest : List Char) (f : Nat) (st : PState)
    (acc : String), input.drop st.pos = rest → st.pos ≤ input.length →
    (∀ c ∈ rest, isWsB c = true) → rest.length + 1 ≤ f →
    ∃ st', parseLoopF input f st acc = some (acc, st') ∧
      st'.errors = st.errors ∧ st'.warnings = st.warnings := by
  intro rest
  induction rest with
  | nil =>
    intro f st acc hdrop hle _ hf
    have hpos : st.pos = input.length := by
      have := List.drop_eq_nil_iff.mp hdrop
      omega
    cases f with
    | zero => omega
    | succ f =>
      refine ⟨st, ?_, rfl, rfl⟩
      unfold parseLoopF
      rw [if_neg (by omega)]
  | cons c rest' ih =>
    intro f st acc hdrop hle hws hf
    simp only [List.length_cons] at hf
    have hlt : st.pos < input.length := lt_length_of_drop_cons hdrop
    have hpeek : peek input st = c := peek_of_drop hdrop
    have hwc : isWsB c = true := hws c (List.mem_cons_self c rest')
    have hcne : c ≠ '<' := by
      intro hc
      rw [hc] at hwc
      simp [isWsB] at hwc
    cases f with
    | zero => omega
    | succ f =>
      unfold parseLoopF
      rw [if_pos hlt, if_neg (by rw [hpeek]; exact hcne), if_neg (by simp [hpeek, hwc])]
      have hadv := advance_pos_of_lt hlt
      obtain ⟨st', heq, he, hw⟩ := ih f (advance input st) acc
        (by rw [hadv]; exact drop_succ_of_drop_cons input st.pos c rest' hdrop)
        (by omega)
        (fun d hd => hws d (List.mem_cons_of_mem c hd))
        (by omega)
      exact ⟨st', heq, by rw [he, advance_errors], by rw [hw, advance_warnings]⟩

theorem parseLoop_pass_raw (input : List Char) : ∀ (rest : List Char) (f : Nat) (st : PState)
    (acc : String), input.drop st.pos = rest → st.pos ≤ input.length → '<' ∉ rest →
    (∃ c ∈ rest, isWsB c = false) → rest.length + 2 ≤ f →
    ∃ st', parseLoopF input f st acc =
        some (acc ++ trimSpaceStr (String.mk rest) ++ "\n", st') ∧
      st'.errors = st.errors ∧ st'.warnings = st.warnings := by
  intro rest
  induction rest with
  | nil =>
    intro f st acc _ _ _ hex _
    obtain ⟨c, hc, _⟩ := hex
    simp at hc
  | cons c rest' ih =>
    intro f st acc hdrop hle hnl hex hf
    simp only [List.length_cons] at hf
    have hlt : st.pos < input.length := lt_length_of_drop_cons hdrop
    have hpeek : peek input st = c := peek_of_drop hdrop
    have hcne : c ≠ '<' := fun hc => hnl (hc ▸ List.mem_cons_self c rest')
    cases f with
    | zero => omega
    | succ f =>
      by_cases hwc : isWsB c = true
      · -- a leading whitespace character is skipped by the top-level loop
        obtain ⟨c0, hc0mem, hc0⟩ := hex
        have hc0' : c0 ∈ rest' := by
          rcases List.mem_cons.mp hc0mem with h | h
          · rw [h] at hc0; rw [hc0] at hwc; cases hwc
          · exact h
        unfold parseLoopF
        rw [if_pos hlt, if_neg (by rw [hpeek]; exact hcne), if_neg (by simp [hpeek, hwc])]
        have hadv := advance_pos_of_lt hlt
        obtain ⟨st', heq, he, hw⟩ := ih f (advance input st) acc
          (by rw [hadv]; exact drop_succ_of_drop_cons input st.pos c rest' hdrop)
          (by omega)
          (fun hc => hnl (List.mem_cons_of_mem c hc))
          ⟨c0, hc0', hc0⟩
          (by omega)
        refine ⟨st', ?_, by rw [he, advance_errors], by rw [hw, advance_warnings]⟩
        rw [heq]
        have htr : trimSpaceStr (String.mk (c :: rest')) = trimSpaceStr (String.mk rest') := by
          unfold trimSpaceStr
          rw [show (String.mk (c :: rest')).data = c :: rest' from rfl,
              show (String.mk rest').data = rest' from rfl,
              trimSpaceL_cons_ws rest' (isSpaceGo_of_isWsB hwc)]
        rw [htr]
      · -- a raw passthrough chunk runs to the end of the input
        unfold parseLoopF
        rw [if_pos hlt, if_neg (by rw [hpeek]; exact hcne),
            if_pos (by simp [hpeek]; simpa using hwc)]
        obtain ⟨st2, heq2, hp2, he2, hw2⟩ := parseRawCode_run hdrop hle hnl
        rw [heq2]
        dsimp only
        cases f with
        | zero => omega
        | succ f =>
          unfold parseLoopF
          rw [if_neg (by omega)]
          exact ⟨st2, rfl, he2, hw2⟩

theorem content_eof (input : List Char) : ∀ (rest : List Char) (f : Nat) (st : PState)
    (nm : String) (ln cl : Nat) (attrs : List (String × String)) (ch : List MarkupTag)
    (acc : List Char) (sp : Nat),
    input.drop st.pos = rest → '<' ∉ rest → rest.length + 1 ≤ f →
    ∃ st', parseStep input f (PReq.content st nm ln cl attrs ch acc sp) =
        some (Except.error ("unclosed tag <" ++ nm ++ "> at line " ++ toString ln
          ++ ", column " ++ toString cl), st') ∧ st'.pos = sp := by
  intro rest
  induction rest with
  | nil =>
    intro f st nm ln cl attrs ch acc sp hdrop _ hf
    have hpos : input.length ≤ st.pos := List.drop_eq_nil_iff.mp hdrop
    cases f with
    | zero => omega
    | succ f =>
      simp only [parseStep]
      rw [if_neg (by omega)]
      exact ⟨_, rfl, rfl⟩
  | cons c rest' ih =>
    intro f st nm ln cl attrs ch acc sp hdrop hnl hf
    simp only [List.length_cons] at hf
    have hlt : st.pos < input.length := lt_length_of_drop_cons hdrop
    have hpeek : peek input st = c := peek_of_drop hdrop
    have hcne : c ≠ '<' := fun hc => hnl (hc ▸ List.mem_cons_self c rest')
    cases f with
    | zero => omega
    | succ f =>
      simp only [parseStep]
      rw [if_pos hlt, if_neg (by rw [hpeek]; exact hcne)]
      have hadv := advance_pos_of_lt hlt
      exact ih f (advance input st) nm ln cl attrs ch (peek input st :: acc) sp
        (by rw [hadv]; exact drop_succ_of_drop_cons input st.pos c rest' hdrop)
        (fun hc => hnl (List.mem_cons_of_mem c hc))
        (by omega)

theorem isIdentChar_ne_nl {c : Char} (h : isIdentChar c = true) : c ≠ '\n' := by
  intro hc
  subst hc
  exact absurd h (by decide)

theorem advance_eq_of_ne_nl {input : List Char} {st : PState} (hlt : st.pos < input.length)
    (hc : input.getD st.pos nulChar ≠ '\n') :
    advance input st = { st with pos := st.pos + 1, column := st.column + 1 } := by
  unfold advance
  rw [if_pos hlt, if_neg hc]

theorem identAux_run (input : List Char) : ∀ (name rest : List Char) (f : Nat) (st : PState),
    input.drop st.pos = name ++ rest → (∀ c ∈ name, isIdentChar c = true) →
    (∀ c, rest.head? = some c → isIdentChar c = false) → input.length - st.pos ≤ f →
    identAux input f st = (name, PState.mk (st.pos + name.length) st.line
      (st.column + name.length) st.errors st.warnings st.targetLang st.indentLevel
      st.scopeVars) := by
  intro name
  induction name with
  | nil =>
    intro rest f st hdrop _ hrest hf
    simp only [List.nil_append] at hdrop
    have hres : identAux input f st = ([], st) := by
      cases f with
      | zero => rfl
      | succ f =>
        unfold identAux
        rw [if_neg]
        simp only [Bool.and_eq_true, decide_eq_true_eq]
        rintro ⟨h1, h2⟩
        cases rest with
        | nil =>
          have := List.drop_eq_nil_iff.mp hdrop
          omega
        | cons c t =>
          rw [peek_of_drop hdrop] at h2
          rw [hrest c rfl] at h2
          cases h2
    rw [hres]
    rfl
  | cons a name' ih =>
    intro rest f st hdrop hname hrest hf
    have hdrop' : input.drop st.pos = a :: (name' ++ rest) := by simpa using hdrop
    have hlt := lt_length_of_drop_cons hdrop'
    have hpeek : peek input st = a := peek_of_drop hdrop'
    have ha : isIdentChar a = true := hname a (List.mem_cons_self a name')
    have hnl : input.getD st.pos nulChar ≠ '\n' := by
      have hp : input.getD st.pos nulChar = a := hpeek
      rw [hp]
      exact isIdentChar_ne_nl ha
    have hadv := advance_eq_of_ne_nl hlt hnl
    have hap : (advance input st).pos = st.pos + 1 := by rw [hadv]
    have hal : (advance input st).line = st.line := by rw [hadv]
    have hac : (advance input st).column = st.column + 1 := by rw [hadv]
    cases f with
    | zero => omega
    | succ f =>
      unfold identAux
      rw [if_pos (by simp [hlt, hpeek, ha])]
      dsimp only
      rw [ih rest f (advance input st)
        (by rw [hap]; exact drop_succ_of_drop_cons input st.pos a (name' ++ rest) hdrop')
        (fun c hc => hname c (List.mem_cons_of_mem a hc))
        hrest
        (by omega)]
      rw [hpeek, hap, hal, hac, advance_errors, advance_warnings, advance_targetLang,
        advance_indentLevel, advance_scopeVars]
      have h1 : st.pos + 1 + name'.length = st.pos + (a :: name').length := by
        simp only [List.length_cons]
        omega
      have h2 : st.column + 1 + name'.length = st.column + (a :: name').length := by
        simp only [List.length_cons]
        omega
      rw [h1, h2]

theorem parseIdentifier_run {input : List Char} {name rest : List Char} {st : PState}
    (hdrop : input.drop st.pos = name ++ rest) (hname : ∀ c ∈ name, isIdentChar c = true)
    (hrest : ∀ c, rest.head? = some c → isIdentChar c = false) :
    parseIdentifier input st = (String.mk name, PState.mk (st.pos + name.length) st.line
      (st.column + name.length) st.errors st.warnings st.targetLang st.indentLevel
      st.scopeVars) := by
  unfold parseIdentifier
  rw [identAux_run input name rest (input.length - st.pos) st hdrop hname hrest (Nat.le_refl _)]

theorem closing_top {input : List Char} {st : PState} (f : Nat)
    (h1 : peek input st = '<') (h2 : peekNext input st = '/') :
    parseStep input (f + 1) (PReq.tag st) =
      some (Except.error "expected '<'", advance input st) := by
  have hlt : st.pos < input.length := peek_lt (by rw [h1]; decide)
  have hsl : peek input (advance input st) = '/' := by rw [peek_advance hlt, h2]
  simp only [parseStep]
  rw [if_neg (not_not_intro h1), if_pos hsl, closing_at_slash hsl]

/-! The claims. -/

/-- C6: Parse terminates on every input string.  For every source text and
target language, the top-level scan loop and the recursive tag parser make
strict forward progress, so `ParseRun` with its chosen fuel always returns
a result (never the fuel-exhaustion marker). -/
theorem c6_parse_terminates : ∀ (source targetLang : String),
    (ParseRun source targetLang).isSome = true := by
  intro s lang
  unfold ParseRun
  split
  · rfl
  · dsimp only
    have h := parseLoop_suff (convertEmojisToKeywords s.data)
      ((convertEmojisToKeywords s.data).length + 2) (initState lang) ""
      (by simp [initState])
    rcases hm : parseLoopF (convertEmojisToKeywords s.data)
        ((convertEmojisToKeywords s.data).length + 2) (initState lang) "" with _ | ⟨out, st⟩
    · rw [hm] at h
      simp at h
    · rfl

/-- C7: validateIdentifier accepts a name iff it is non-empty, matches
the identifier regular expression, and is not an exact lowercase match of
one of the nine reserved words; in particular `If` is accepted while `if`
is rejected.  (The verdict is the same on every call since the function
is pure and ignores no inputs.) -/
theorem c7_validateIdentifier :
    (∀ name : String, validateIdentifier name = none ↔
      (name ≠ "" ∧ identRegexMatch name = true ∧ name ∉ reservedWords)) ∧
    validateIdentifier "If" = none ∧
    validateIdentifier "if" = some "'if' is a reserved keyword" := by
  refine ⟨?_, by decide, by decide⟩
  intro name
  unfold validateIdentifier
  by_cases h1 : name = ""
  · simp [h1]
  · rw [if_neg h1]
    by_cases h2 : identRegexMatch name = true
    · rw [if_neg (by simp [h2])]
      by_cases h3 : name ∈ reservedWords
      · simp [h3, h1, h2]
      · simp [h3, h1, h2]
    · rw [if_pos (by simp [Bool.not_eq_true] at h2 ⊢; exact h2)]
      simp [h1, h2]

/-- C8: transpileLoop's attribute precedence is `in` over `times` over
`from`/`to`: any tag with a non-empty `in` (in particular one that also
carries `times`) renders the for-of form; with `in` empty and `times`
non-empty, the counted form; with both empty and `from`/`to` non-empty,
the range form; and a tag missing all of them renders the inline
invalid-loop-configuration comment instead of failing. -/
theorem c8_loop_precedence : ∀ (st : PState) (tag : MarkupTag),
    (attrGet tag.Attributes "in" ≠ "" →
      transpileLoop st tag = (indentStr st ++ "for (const "
        ++ (if attrGet tag.Attributes "var" = "" then "item" else attrGet tag.Attributes "var")
        ++ " of " ++ attrGet tag.Attributes "in" ++ ") \x7b\n"
        ++ indentBlock st (trimSpaceStr tag.Content) ++ "\n" ++ indentStr st ++ "\x7d", st)) ∧
    (attrGet tag.Attributes "in" = "" → attrGet tag.Attributes "times" ≠ "" →
      transpileLoop st tag = (indentStr st ++ "for (let "
        ++ (if attrGet tag.Attributes "var" = "" then "i" else attrGet tag.Attributes "var")
        ++ " = 0; "
        ++ (if attrGet tag.Attributes "var" = "" then "i" else attrGet tag.Attributes "var")
        ++ " < " ++ attrGet tag.Attributes "times" ++ "; "
        ++ (if attrGet tag.Attributes "var" = "" then "i" else attrGet tag.Attributes "var")
        ++ "++) \x7b\n"
        ++ indentBlock st (trimSpaceStr tag.Content) ++ "\n" ++ indentStr st ++ "\x7d", st)) ∧
    (attrGet tag.Attributes "in" = "" → attrGet tag.Attributes "times" = "" →
      attrGet tag.Attributes "from" ≠ "" → attrGet tag.Attributes "to" ≠ "" →
      transpileLoop st tag = (indentStr st ++ "for (let "
        ++ (if attrGet tag.Attributes "var" = "" then "i" else attrGet tag.Attributes "var")
        ++ " = " ++ attrGet tag.Attributes "from" ++ "; "
        ++ (if attrGet tag.Attributes "var" = "" then "i" else attrGet tag.Attributes "var")
        ++ " < " ++ attrGet tag.Attributes "to" ++ "; "
        ++ (if attrGet tag.Attributes "var" = "" then "i" else attrGet tag.Attributes "var")
        ++ " += "
        ++ (if attrGet tag.Attributes "step" = "" then "1" else attrGet tag.Attributes "step")
        ++ ") \x7b\n"
        ++ indentBlock st (trimSpaceStr tag.Content) ++ "\n" ++ indentStr st ++ "\x7d", st)) ∧
    (attrGet tag.Attributes "in" = "" → attrGet tag.Attributes "times" = "" →
      (attrGet tag.Attributes "from" = "" ∨ attrGet tag.Attributes "to" = "") →
      transpileLoop st tag = (indentStr st ++ "/* Invalid loop configuration */", st)) := by
  intro st tag
  refine ⟨?_, ?_, ?_, ?_⟩
  · intro hin
    unfold transpileLoop
    dsimp only
    split <;> rfl
  · intro hin htimes
    unfold transpileLoop
    dsimp only
    split
    all_goals rw [if_neg (not_not_intro hin)]
  · intro hin htimes hfrom hto
    unfold transpileLoop
    dsimp only
    split
    all_goals rw [if_neg (not_not_intro hin)]
    all_goals try rw [if_neg (not_not_intro htimes)]
    all_goals try rw [if_pos (by simp [hfrom, hto])]
  · intro hin htimes hft
    have hcond : ¬((decide (attrGet tag.Attributes "from" ≠ "")
        && decide (attrGet tag.Attributes "to" ≠ "")) = true) := by
      simp only [Bool.and_eq_true, decide_eq_true_eq, ne_eq]
      rintro ⟨h1, h2⟩
      rcases hft with h | h
      · exact h1 h
      · exact h2 h
    unfold transpileLoop
    dsimp only
    split
    all_goals rw [if_neg (not_not_intro hin)]
    all_goals try rw [if_neg (not_not_intro htimes)]

/-- C8 witness: a loop tag carrying both `in="items"` and `times="5"`
renders the for-of form driven by `in`, not the counted form. -/
theorem c8_loop_precedence_witness :
    transpileLoop (initState "javascript")
      { Name := "loop", Attributes := [("var", "i"), ("in", "items"), ("times", "5")],
        Content := "x()", Children := [], Line := 1, Column := 2 } =
      ("for (const i of items) \x7b\n  x()\n\x7d", initState "javascript") := by
  have h := (c8_loop_precedence (initState "javascript")
    { Name := "loop", Attributes := [("var", "i"), ("in", "items"), ("times", "5")],
      Content := "x()", Children := [], Line := 1, Column := 2 }).1 (by decide)
  rw [h]
  decide

/-- C10 counterexample: the input `</print>` does not parse as a synthetic
tag rendered through the normal dispatch; instead Parse records the error
`expected '<'` (so the error list is not empty) and the raw remainder
`print>` becomes the output. -/
theorem c10_counterexample :
    ParseRun "</print>" "javascript" =
      some ⟨"print>\n", some "parsing errors: expected '<'", ["expected '<'"], []⟩ ∧
    (["expected '<'"] : List String) ≠ [] ∧ ("print>\n" : String) ≠ "console.log();\n" := by
  refine ⟨?_, ?_, ?_⟩ <;> decide

/-- C10 amended: a closing tag at top level is a parse error.  parseTag
consumes the `<` before delegating to parseClosingTag, whose own leading
`<` check therefore always fails: whenever the scanner sees `</`, parseTag
returns the error `expected '<'` with only the `<` consumed.  For the
input `</print>` the recorded error list is `["expected '<'"]` and the
remainder is emitted as raw text `print>`. -/
theorem c10_amended :
    (∀ (input : List Char) (st : PState) (f : Nat),
      peek input st = '<' → peekNext input st = '/' →
      parseStep input (f + 1) (PReq.tag st) =
        some (Except.error "expected '<'", advance input st)) ∧
    ParseRun "</print>" "javascript" =
      some ⟨"print>\n", some "parsing errors: expected '<'", ["expected '<'"], []⟩ :=
  ⟨fun _ _ f h1 h2 => closing_top f h1 h2, by decide⟩

/-- C10 amended witness: the general statement applied to the input
`</print>` at its first character. -/
theorem c10_amended_witness :
    parseStep "</print>".data (3 + 1) (PReq.tag (initState "javascript")) =
      some (Except.error "expected '<'", advance "</print>".data (initState "javascript")) :=
  c10_amended.1 "</print>".data (initState "javascript") 3 (by decide) (by decide)

/-- C4 counterexample: for the empty input, Parse returns the generic
non-nil error `empty input`, yet the recorded error list is empty, so the
claimed equivalence fails there. -/
theorem c4_counterexample :
    ParseRun "" "javascript" = some ⟨"", some "empty input", [], []⟩ ∧
    ¬(((some "empty input" : Option String).isSome = true) ↔ (([] : List String) ≠ [])) := by
  refine ⟨by decide, by decide⟩

/-- C4 amended: for every input whose trimmed form is non-empty, Parse
returns a non-nil error iff the accumulated error list is non-empty; the
empty-trimmed-input case fails with the generic `empty input` error while
the recorded list stays empty. -/
theorem c4_amended : ∀ (source targetLang : String) (r : ParseResult),
    trimSpaceStr source ≠ "" → ParseRun source targetLang = some r →
    (r.error.isSome = true ↔ r.errors ≠ []) := by
  intro s lang r htrim heq
  unfold ParseRun at heq
  rw [if_neg htrim] at heq
  dsimp only at heq
  rcases hm : parseLoopF (convertEmojisToKeywords s.data)
      ((convertEmojisToKeywords s.data).length + 2) (initState lang) "" with _ | ⟨out, st⟩
  · rw [hm] at heq
    simp at heq
  · rw [hm] at heq
    have hr := Option.some.inj heq
    subst hr
    by_cases hz : st.errors = []
    · simp [hz]
    · simp [hz]

/-- C4 amended witness: the equivalence evaluated on the one-character
input `x`, whose parse succeeds with an empty error list. -/
theorem c4_amended_witness :
    ((⟨"x\n", none, [], []⟩ : ParseResult).error.isSome = true) ↔
      (⟨"x\n", none, [], []⟩ : ParseResult).errors ≠ [] :=
  c4_amended "x" "javascript" _ (by decide) (by decide)

/-- C9: raw passthrough is a no-op round trip.  For every source whose
trimmed form is non-empty, that contains no `<` character and none of the
emoji patterns of the preprocessing table, Parse succeeds with no error
and returns exactly the trimmed input followed by a single newline, so
re-parsing previously generated tag-free output returns it unchanged. -/
theorem c9_raw_roundtrip : ∀ (source targetLang : String),
    trimSpaceStr source ≠ "" → '<' ∉ source.data →
    (∀ pr ∈ emojiTable, containsSub pr.1 source.data = false) →
    ParseRun source targetLang =
      some ⟨trimSpaceStr source ++ "\n", none, [], []⟩ := by
  intro s lang htrim hnl hemoji
  unfold ParseRun
  rw [if_neg htrim]
  dsimp only
  rw [convertEmojis_id hemoji]
  have htrim' : trimSpaceL s.data ≠ [] := by
    intro hh
    refine htrim ?_
    unfold trimSpaceStr
    rw [hh]
  have hex : ∃ c ∈ s.data, isWsB c = false := by
    obtain ⟨c, hcm, hcs⟩ := exists_nonspace_of_trim_ne htrim'
    refine ⟨c, hcm, ?_⟩
    cases hb : isWsB c with
    | false => rfl
    | true => rw [isSpaceGo_of_isWsB hb] at hcs; cases hcs
  obtain ⟨st', heq, he, hw⟩ := parseLoop_pass_raw s.data s.data (s.data.length + 2)
    (initState lang) "" (by rfl) (Nat.zero_le _) hnl hex (by omega)
  rw [heq]
  dsimp only
  have he' : st'.errors = [] := by rw [he]; rfl
  have hw' : st'.warnings = [] := by rw [hw]; rfl
  rw [he', hw']
  rfl

/-- C9 witness: a previously generated JavaScript-looking line containing
no tags and no emoji re-parses to itself (trimmed, newline-terminated). -/
theorem c9_raw_roundtrip_witness :
    ParseRun "console.log(42);" "javascript" =
      some ⟨"console.log(42);\n", none, [], []⟩ := by
  have h := c9_raw_roundtrip "console.log(42);" "javascript" (by decide) (by decide) (by decide)
  rw [h]
  decide

theorem isIdentChar_ne_slash {c : Char} (h : isIdentChar c = true) : c ≠ '/' := by
  intro hc
  subst hc
  exact absurd h (by decide)

theorem drop_eq_of_append {l1 l2 : List Char} {n : Nat} (h : l1.length = n) :
    (l1 ++ l2).drop n = l2 := by
  subst h
  exact List.drop_left l1 l2

/-- C5 amended: on reaching end of input without a matching close tag,
parseTag reports `unclosed tag <name> at line L, column C` where L and C
are the 1-based line and column reached immediately after reading the tag
name (not of the tag's opening `<`), and restores the scan position to
the content start just after the opening tag's `>` (not to the tag's
start).  Proved for every single-line opening tag `<name>` followed by
tag-free content that reaches end of input. -/
theorem c5_amended (name rest : List Char) (f : Nat) (h1 : name ≠ [])
    (h2 : ∀ c ∈ name, isIdentChar c = true) (h3 : '<' ∉ rest)
    (hf : rest.length + 1 ≤ f) :
    ∃ st', parseStep ('<' :: name ++ '>' :: rest) (f + 1)
        (PReq.tag (initState "javascript")) =
      some (Except.error ("unclosed tag <" ++ String.mk name ++ "> at line "
        ++ toString (1 : Nat) ++ ", column " ++ toString (name.length + 2)), st') ∧
      st'.pos = name.length + 2 := by
  obtain ⟨a, name', rfl⟩ : ∃ a name', name = a :: name' := by
    cases name with
    | nil => exact absurd rfl h1
    | cons a n => exact ⟨a, n, rfl⟩
  have hida : isIdentChar a = true := h2 a (List.mem_cons_self a name')
  simp only [parseStep]
  rw [if_neg (not_not_intro (show peek ('<' :: (a :: name') ++ '>' :: rest)
    (initState "javascript") = '<' from rfl))]
  have hlen : (0 : Nat) < ('<' :: (a :: name') ++ '>' :: rest).length := by
    simp
  have hadv1 : advance ('<' :: (a :: name') ++ '>' :: rest) (initState "javascript") =
      PState.mk 1 1 2 [] [] "javascript" 0 [] := rfl
  rw [hadv1]
  rw [if_neg (show ¬ peek ('<' :: (a :: name') ++ '>' :: rest)
    (PState.mk 1 1 2 [] [] "javascript" 0 []) = '/' from by
      show ¬ (('<' :: (a :: name') ++ '>' :: rest).getD 1 nulChar = '/')
      have : ('<' :: (a :: name') ++ '>' :: rest).getD 1 nulChar = a := rfl
      rw [this]
      exact isIdentChar_ne_slash hida)]
  have hident := @parseIdentifier_run ('<' :: (a :: name') ++ '>' :: rest)
    (a :: name') ('>' :: rest) (PState.mk 1 1 2 [] [] "javascript" 0 [])
    (by rfl)
    h2
    (by intro c hc; simp only [List.head?_cons, Option.some.injEq] at hc; subst hc; decide)
  rw [hident]
  dsimp only
  rw [if_neg (show ¬ String.mk (a :: name') = "" from by simp [String.ext_iff])]
  have hd2 : ('<' :: (a :: name') ++ '>' :: rest).drop (1 + (a :: name').length) =
      '>' :: rest := by
    refine drop_eq_of_append ?_
    simp only [List.length_cons]
    omega
  have hpeek2 : peek ('<' :: (a :: name') ++ '>' :: rest)
      (PState.mk (1 + (a :: name').length) 1 (2 + (a :: name').length) [] [] "javascript" 0 [])
      = '>' := peek_of_drop hd2
  rw [skipWhitespace_id (by rw [hpeek2]; decide)]
  rw [attrLoop_id (Or.inl hpeek2)]
  dsimp only
  rw [if_neg (show ¬ peek ('<' :: (a :: name') ++ '>' :: rest)
    (PState.mk (1 + (a :: name').length) 1 (2 + (a :: name').length) [] [] "javascript" 0 [])
      = '/' from by rw [hpeek2]; decide)]
  rw [if_neg (not_not_intro hpeek2)]
  have hgd : ('<' :: (a :: name') ++ '>' :: rest).getD (1 + (a :: name').length) nulChar
      = '>' := hpeek2
  have hadv2 : advance ('<' :: (a :: name') ++ '>' :: rest)
      (PState.mk (1 + (a :: name').length) 1 (2 + (a :: name').length) [] [] "javascript" 0 [])
      = PState.mk (1 + (a :: name').length + 1) 1 (2 + (a :: name').length + 1) [] []
          "javascript" 0 [] := by
    rw [advance_eq_of_ne_nl (lt_length_of_drop_cons hd2) (by rw [hgd]; decide)]
  rw [hadv2]
  have hd3 : ('<' :: (a :: name') ++ '>' :: rest).drop (1 + (a :: name').length + 1)
      = rest := by
    rw [show ('<' : Char) :: (a :: name') ++ '>' :: rest
      = (('<' : Char) :: (a :: name') ++ ['>']) ++ rest from by simp]
    refine drop_eq_of_append ?_
    simp only [List.length_append, List.length_cons]
    simp
    omega
  obtain ⟨st', heq, hpos⟩ := content_eof ('<' :: (a :: name') ++ '>' :: rest) rest f
    (PState.mk (1 + (a :: name').length + 1) 1 (2 + (a :: name').length + 1) [] []
      "javascript" 0 [])
    (String.mk (a :: name')) 1 (2 + (a :: name').length) [] [] []
    (1 + (a :: name').length + 1) hd3 h3 hf
  have hcomm : (2 : Nat) + (a :: name').length = (a :: name').length + 2 := by omega
  rw [hcomm] at heq ⊢
  exact ⟨st', heq, by omega⟩

/-- C5 amended witness: for the input `<function>x` the reported position
is line 1, column 10 (just after the tag name), and the scan position is
restored to 10, the content start. -/
theorem c5_amended_witness :
    ((parseStep ('<' :: "function".data ++ '>' :: "x".data) (2 + 1)
        (PReq.tag (initState "javascript"))).map
      (fun rs => ((match rs.1 with | Except.error e => e | Except.ok _ => ""), rs.2.pos)))
      = some ("unclosed tag <function> at line 1, column 10", 10) := by
  obtain ⟨st', heq, hpos⟩ := c5_amended "function".data "x".data 2
    (by decide) (by decide) (by decide) (by decide)
  rw [heq]
  simp only [Option.map_some']
  rw [hpos]
  decide

/-- C5 counterexample: for the spec's own example `<function name="f">`,
the unclosed-tag error reports column 10 (the position just after the tag
name), not column 1 (the tag's opening `<`), and the scan position is
restored to 19 (the content start, here end of input), not 0 (the tag's
start). -/
theorem c5_counterexample :
    ((parseStep "<function name=\"f\">".data 40 (PReq.tag (initState "javascript"))).map
      (fun rs => ((match rs.1 with | Except.error e => e | Except.ok _ => ""), rs.2.pos)))
      = some ("unclosed tag <function> at line 1, column 10", 19) ∧
    ("unclosed tag <function> at line 1, column 10" : String)
      ≠ "unclosed tag <function> at line 1, column 1" ∧ (19 : Nat) ≠ 0 := by
  refine ⟨?_, ?_, ?_⟩ <;> decide

/-- C1 counterexample: for the input `<var name="x" value="5"/>`, Parse
succeeds but the rendered output line is `var x = 5;`, not `let x = 5;`. -/
theorem c1_counterexample :
    ParseRun "<var name=\"x\" value=\"5\"/>" "javascript" =
      some ⟨"var x = 5;\n", none, [], []⟩ ∧
    ("var x = 5;\n" : String) ≠ "let x = 5;\n" := by
  refine ⟨?_, ?_⟩ <;> decide

/-- C1 amended: the var-family keyword follows the stored tag name:
`<var name="x" value="5"/>` renders `var x = 5;`, and the `let` keyword is
produced for the other family members, e.g. `<let name="x" value="5"/>`
renders `let x = 5;`. -/
theorem c1_amended :
    ParseRun "<var name=\"x\" value=\"5\"/>" "javascript" =
      some ⟨"var x = 5;\n", none, [], []⟩ ∧
    ParseRun "<let name=\"x\" value=\"5\"/>" "javascript" =
      some ⟨"let x = 5;\n", none, [], []⟩ := by
  refine ⟨?_, ?_⟩ <;> decide

/-- C2 counterexample: the rendered expression of `<print>eval(x)</print>`
contains `eval(`, yet the transpiled output carries no UNSAFE marker and
the warning list stays empty. -/
theorem c2_counterexample :
    ParseRun "<print>eval(x)</print>" "javascript" =
      some ⟨"console.log(eval(x));\n", none, [], []⟩ ∧
    containsSub "eval(".data "console.log(eval(x));\n".data = true ∧
    containsSub "UNSAFE".data "console.log(eval(x));\n".data = false := by
  refine ⟨?_, ?_, ?_⟩ <;> decide

/-- C2 amended: sanitizeExpression, when invoked, wraps the dangerous
substring in an inline UNSAFE comment and records a warning, but no
transpilation path invokes it: an expression containing `eval(` passes
through a variable declaration unchanged with no warning recorded. -/
theorem c2_amended :
    sanitizeExpression (initState "javascript") "eval(x)" =
      ("/* UNSAFE: eval( */x)",
        { initState "javascript" with
            warnings := ["potentially unsafe pattern detected: eval("] }) ∧
    ParseRun "<var name=\"x\" value=\"eval(1)\"/>" "javascript" =
      some ⟨"var x = eval(1);\n", none, [], []⟩ := by
  refine ⟨?_, ?_⟩ <;> decide

/-- C3 counterexample: the tag parser stores the `Name` field exactly as
written: parsing `<CONST name="x" value="1"/>` yields a tag whose stored
name `CONST` contains uppercase letters. -/
theorem c3_counterexample :
    ((parseStep "<CONST name=\"x\" value=\"1\"/>".data 40
        (PReq.tag (initState "javascript"))).map
      (fun rs => match rs.1 with | Except.ok t => t.Name | Except.error e => e))
      = some "CONST" ∧
    "CONST".data.any (fun c => decide ('A' ≤ c) && decide (c ≤ 'Z')) = true := by
  refine ⟨?_, ?_⟩ <;> decide

/-- C3 amended: tag names are stored as written (no lowercase
normalization in the parser); transpileTag lowercases only for dispatch,
and the stored casing can affect later steps: `<CONST name="x" value="1"/>`
renders with keyword `let` while `<const name="x" value="1"/>` renders
with keyword `const`. -/
theorem c3_amended :
    ((parseStep "<CONST name=\"x\" value=\"1\"/>".data 40
        (PReq.tag (initState "javascript"))).map
      (fun rs => match rs.1 with | Except.ok t => t.Name | Except.error e => e))
      = some "CONST" ∧
    ParseRun "<CONST name=\"x\" value=\"1\"/>" "javascript" =
      some ⟨"let x = 1;\n", none, [], []⟩ ∧
    ParseRun "<const name=\"x\" value=\"1\"/>" "javascript" =
      some ⟨"const x = 1;\n", none, [], []⟩ := by
  refine ⟨?_, ?_, ?_⟩ <;> decide
